import Mathlib

/-!
Shallow embedding of the `libcplusplus` heap-allocation sanitizer core
(`src/sanitize/{redzone,diagnostic,quarantine,tracker,mod}.rs`).

Machine words (`usize`) are modelled as `Nat`; the one wrapping operation in
the source (`wrapping_mul` in the tracker hash) carries an explicit
`% 2 ^ 64`.  Process memory is a byte map `Nat → Nat`.  The two spin locks
only serialise access to the two singletons, so the sequential embedding
passes the protected state explicitly.  Fatal diagnostic reporters write a
report to stderr and then invoke the platform `abort` primitive, never
returning; they are modelled by the `Fatal` inductive carried in the
`Except.error` branch, which records which reporter fired and with which
arguments.
-/

namespace LibCpp

/-- Embeds `AllocKind` from `tracker.rs`. -/
inductive AllocKind where
  | Rust
  | ScalarNew
  | ArrayNew
deriving DecidableEq, Repr

/-- Embeds `SlotState` from `tracker.rs`. -/
inductive SlotState where
  | Empty
  | Occupied
  | Tombstone
deriving DecidableEq, Repr

/-! ## redzone.rs -/

/-- Embeds `REDZONE_SIZE` -/
abbrev REDZONE_SIZE : Nat := 16

/-- Embeds `CANARY_BYTE = 0xAB` -/
abbrev CANARY_BYTE : Nat := 0xAB

/-- Embeds `POISON_BYTE = 0xFE` -/
abbrev POISON_BYTE : Nat := 0xFE

/-- Embeds `total_size`: total allocation size including both redzones. -/
def total_size (user_size : Nat) : Nat :=
  REDZONE_SIZE + user_size + REDZONE_SIZE

/-- Process memory as a byte map. -/
def Mem : Type := Nat → Nat

/-- Embeds `core::ptr::write_bytes`: fill `n` bytes starting at `p` with `v`. -/
def writeBytes (m : Mem) (p v n : Nat) : Mem :=
  fun a => if p ≤ a ∧ a < p + n then v else m a

/-- Embeds `fill_canaries`: canary-fill the prefix redzone at `base` and the suffix
redzone at `base + REDZONE_SIZE + user_size`. -/
def fill_canaries (m : Mem) (base user_size : Nat) : Mem :=
  writeBytes (writeBytes m base CANARY_BYTE REDZONE_SIZE)
    (base + REDZONE_SIZE + user_size) CANARY_BYTE REDZONE_SIZE

/-- Embeds `poison`: overwrite the user region with `POISON_BYTE`. -/
def poison (m : Mem) (user_ptr user_size : Nat) : Mem :=
  writeBytes m user_ptr POISON_BYTE user_size

/-! ## diagnostic.rs -/

/-- The byte for hex digit `d` in `format_hex`'s inner loop:
`b'0' + digit` below ten, else `b'a' + digit - 10`. -/
def hexDigitByte (d : Nat) : Nat :=
  if d < 10 then 48 + d else 97 + d - 10

/-- The digit-producing loop of `format_hex`: the Rust loop walks buffer
indices `17` down to `2`, writing `v & 0xF` (`= v % 16` on a non-negative
word) and then shifting `v >>= 4` (`= v / 16`); index `17 - j` therefore
receives digit `j` of `value` base 16.  `format_hex_digits k v` is the list
of bytes the loop leaves in the last `k` buffer cells, in buffer order. -/
def format_hex_digits : Nat → Nat → List Nat
  | 0, _ => []
  | k + 1, v => format_hex_digits k (v / 16) ++ [hexDigitByte (v % 16)]

/-- Embeds `format_hex`: `"0x"` (bytes `48, 120`) followed by 16 zero-padded
lowercase hex digits. -/
def format_hex (value : Nat) : List Nat :=
  48 :: 120 :: format_hex_digits 16 value

/-- The digit-producing loop of `format_dec`: while `v > 0`, prepend
`b'0' + v % 10` and continue with `v / 10`. -/
def format_dec_loop (v : Nat) : List Nat :=
  if h : v = 0 then []
  else format_dec_loop (v / 10) ++ [48 + v % 10]
termination_by v
decreasing_by exact Nat.div_lt_self (Nat.pos_of_ne_zero h) (by omega)

/-- Embeds `format_dec`: the value 0 yields the single byte `'0'`; otherwise the
loop's digits with no leading zero. -/
def format_dec (value : Nat) : List Nat :=
  if value = 0 then [48] else format_dec_loop value

/-- A fatal diagnostic report.  In `diagnostic.rs` each reporter writes its
banner and detail lines to stderr and then calls `report_abort`, which
writes `"aborting.\n\n"` and invokes the platform `abort` primitive; none of
them returns.  The constructor records which reporter fired and its
arguments. -/
inductive Fatal where
  | double_free (addr : Nat)
  | invalid_free (addr : Nat)
  | mismatched_dealloc (addr : Nat) (expected actual : AllocKind)
  | overflow_detected (addr size : Nat) (prefix_corrupt suffix_corrupt : Bool)
deriving DecidableEq, Repr

/-- Embeds `check_canaries`: scan both redzones; the Rust loops break at the first
byte differing from `CANARY_BYTE`, so each corruption flag is exactly "some
byte in that redzone differs".  On corruption the source calls
`overflow_detected`, which aborts; modelled as `some` of that report. -/
def check_canaries (m : Mem) (base user_size user_addr : Nat) : Option Fatal :=
  let prefix_corrupt :=
    (List.range REDZONE_SIZE).any (fun i => m (base + i) != CANARY_BYTE)
  let suffix_corrupt :=
    (List.range REDZONE_SIZE).any
      (fun i => m (base + REDZONE_SIZE + user_size + i) != CANARY_BYTE)
  if prefix_corrupt || suffix_corrupt then
    some (Fatal.overflow_detected user_addr user_size prefix_corrupt suffix_corrupt)
  else
    none

/-! ## quarantine.rs -/

/-- Quarantine `CAPACITY` (named `CAPACITY` in `quarantine.rs`). -/
abbrev QCAPACITY : Nat := 256

/-- Quarantine `Entry`. -/
structure QEntry where
  user_addr : Nat
  base_addr : Nat
  user_size : Nat
deriving DecidableEq, Repr

/-- Embeds `Entry::EMPTY` -/
def QEntry.EMPTY : QEntry := ⟨0, 0, 0⟩

/-- Embeds `QuarantineInner`: ring of 256 entries, write position, live count.
The fixed array is modelled as a map from index to entry; only indices
below `QCAPACITY` are ever read or written. -/
structure QuarantineInner where
  ring : Nat → QEntry
  pos : Nat
  len : Nat

/-- Embeds `QuarantineInner::new()` -/
def QuarantineInner.new : QuarantineInner :=
  { ring := fun _ => QEntry.EMPTY, pos := 0, len := 0 }

/-- Point update of a ring array. -/
def updRing (f : Nat → QEntry) (i : Nat) (e : QEntry) : Nat → QEntry :=
  fun j => if j = i then e else f j

/-- Embeds `QuarantineInner::push`: if full, remember the `base_addr` at the write
position as the evicted value, else increment `len`; overwrite the slot at
`pos`; advance `pos` modulo capacity.  Returns the new state and the
evicted base, if any. -/
def QuarantineInner.push (s : QuarantineInner) (user_addr base_addr user_size : Nat) :
    QuarantineInner × Option Nat :=
  let evicted := if s.len = QCAPACITY then some (s.ring s.pos).base_addr else none
  let len2 := if s.len = QCAPACITY then s.len else s.len + 1
  ({ ring := updRing s.ring s.pos ⟨user_addr, base_addr, user_size⟩
   , pos := (s.pos + 1) % QCAPACITY
   , len := len2 }, evicted)

/-- Embeds `QuarantineInner::contains`: linear scan of the `len` populated slots,
returning true at the first matching `user_addr`. -/
def QuarantineInner.contains (s : QuarantineInner) (user_addr : Nat) : Bool :=
  (List.range s.len).any (fun i => (s.ring i).user_addr == user_addr)

/-! ## tracker.rs -/

/-- Tracker `CAPACITY` (named `CAPACITY` in `tracker.rs`). -/
abbrev TCAPACITY : Nat := 16384

/-- Tracker `Entry`. -/
structure TEntry where
  addr : Nat
  size : Nat
  state : SlotState
  kind : AllocKind
deriving DecidableEq, Repr

/-- Embeds `Entry::EMPTY` -/
def TEntry.EMPTY : TEntry := ⟨0, 0, SlotState.Empty, AllocKind.Rust⟩

/-- Embeds `TrackerInner`: 16384 fixed slots plus the occupied count.  The fixed
array is modelled as a map from index to entry; only indices below
`TCAPACITY` are ever read or written. -/
structure TrackerInner where
  entries : Nat → TEntry
  count : Nat

/-- Embeds `TrackerInner::new()` -/
def TrackerInner.new : TrackerInner :=
  { entries := fun _ => TEntry.EMPTY, count := 0 }

/-- Point update of the slot array. -/
def updSlot (f : Nat → TEntry) (i : Nat) (e : TEntry) : Nat → TEntry :=
  fun j => if j = i then e else f j

/-- Embeds `TrackerInner::hash`: Fibonacci hashing.  `wrapping_mul` by
`0x9E3779B97F4A7C15` is multiplication modulo `2^64`; the shift is by
`usize::BITS - 14 = 50`. -/
def TrackerInner.hash (addr : Nat) : Nat :=
  (addr * 0x9E3779B97F4A7C15 % (2 ^ 64)) >>> 50

/-- The probe loop of `TrackerInner::insert`, with the remaining iteration
count of the bounded `for` loop made an explicit fuel argument (the source
runs it `CAPACITY` times).  On an `Empty` or `Tombstone` slot, write the
record `Occupied` and increment `count`; on `Occupied`, advance the index
modulo capacity; when fuel runs out the insertion is dropped silently. -/
def TrackerInner.insertAux (t : TrackerInner) (addr size : Nat) (kind : AllocKind) :
    Nat → Nat → TrackerInner
  | _, 0 => t
  | idx, fuel + 1 =>
    if (t.entries idx).state = SlotState.Occupied then
      t.insertAux addr size kind ((idx + 1) % TCAPACITY) fuel
    else
      { entries := updSlot t.entries idx
          { addr := addr, size := size, state := SlotState.Occupied, kind := kind }
      , count := t.count + 1 }

/-- Embeds `TrackerInner::insert` -/
def TrackerInner.insert (t : TrackerInner) (addr size : Nat) (kind : AllocKind) :
    TrackerInner :=
  t.insertAux addr size kind (TrackerInner.hash addr % TCAPACITY) TCAPACITY

/-- The probe loop of `TrackerInner::remove`, fuel as in `insertAux`.  An
`Occupied` slot with matching `addr` becomes a `Tombstone`, `count` is
decremented and its size and kind returned; an `Empty` slot stops the probe
with `none`; anything else advances the index. -/
def TrackerInner.removeAux (t : TrackerInner) (addr : Nat) :
    Nat → Nat → TrackerInner × Option (Nat × AllocKind)
  | _, 0 => (t, none)
  | idx, fuel + 1 =>
    if (t.entries idx).state = SlotState.Occupied ∧ (t.entries idx).addr = addr then
      ({ entries := updSlot t.entries idx { t.entries idx with state := SlotState.Tombstone }
       , count := t.count - 1 }, some ((t.entries idx).size, (t.entries idx).kind))
    else if (t.entries idx).state = SlotState.Empty then
      (t, none)
    else
      t.removeAux addr ((idx + 1) % TCAPACITY) fuel

/-- Embeds `TrackerInner::remove` -/
def TrackerInner.remove (t : TrackerInner) (addr : Nat) :
    TrackerInner × Option (Nat × AllocKind) :=
  t.removeAux addr (TrackerInner.hash addr % TCAPACITY) TCAPACITY

/-- The slots `for_each_live` visits, in slot order: every `Occupied` entry. -/
def TrackerInner.liveList (t : TrackerInner) : List TEntry :=
  (List.range TCAPACITY).filterMap
    (fun i => if (t.entries i).state = SlotState.Occupied then some (t.entries i) else none)

/-- One stderr emission of `report_leaks` (modelled abstractly: the banner
write, one `leak_detected` line per live slot, the `total leaks:` trailer). -/
inductive LeakOut where
  | banner
  | leak (addr size : Nat) (kind : AllocKind)
  | trailer (count : Nat)
deriving DecidableEq, Repr

/-- Embeds `report_leaks`: if `count == 0` return with no output; otherwise the
banner, one `leak_detected` line per `Occupied` slot (via `for_each_live`),
and the `total leaks: N` trailer. -/
def TrackerInner.report_leaks (t : TrackerInner) : List LeakOut :=
  if t.count = 0 then []
  else
    LeakOut.banner ::
      (t.liveList.map (fun e => LeakOut.leak e.addr e.size e.kind) ++
        [LeakOut.trailer t.count])

/-! ## mod.rs — the sanitized pipeline -/

/-- Embeds `kind_compatible` -/
def kind_compatible (tracked freed : AllocKind) : Bool :=
  match tracked, freed with
  | AllocKind.Rust, AllocKind.Rust => true
  | AllocKind.ScalarNew, AllocKind.ScalarNew => true
  | AllocKind.ArrayNew, AllocKind.ArrayNew => true
  | _, _ => false

/-- The sanitizer-visible process state: the two singletons, process memory,
and the log of bases handed to the platform `free` primitive. -/
structure SanState where
  tracker : TrackerInner
  quarantine : QuarantineInner
  mem : Mem
  freed : List Nat

/-- Process state at start-up: both singletons freshly constructed, no
platform `free` call yet.  `mem0` is the arbitrary initial memory. -/
def SanState.init (mem0 : Mem) : SanState :=
  { tracker := TrackerInner.new, quarantine := QuarantineInner.new
  , mem := mem0, freed := [] }

/-- Result of `sanitized_alloc`: the size requested from the platform
`malloc`, the returned user pointer (0 for null), and the post state. -/
structure AllocResult where
  requested : Nat
  ret : Nat
  state : SanState

/-- Embeds `sanitized_alloc`, with the platform `malloc` result supplied by the
environment as `base` (0 models a null return).  Computes
`total = total_size(user_size)`, requests `total` bytes; on null returns
null; otherwise fills canaries, derives `user_ptr = base + REDZONE_SIZE`,
records `(user_ptr, user_size, Rust)` in the tracker and returns
`user_ptr`. -/
def sanitized_alloc (s : SanState) (user_size base : Nat) : AllocResult :=
  let total := total_size user_size
  if base = 0 then
    { requested := total, ret := 0, state := s }
  else
    let m2 := fill_canaries s.mem base user_size
    let user_ptr := base + REDZONE_SIZE
    let tr2 := s.tracker.insert user_ptr user_size AllocKind.Rust
    { requested := total, ret := user_ptr
    , state := { s with mem := m2, tracker := tr2 } }

/-- Embeds `dealloc_inner`: null is a no-op; otherwise remove the address from the
tracker.  On a hit: kind mismatch is fatal; canary corruption is fatal;
otherwise poison the user region, push `(user_addr, base, size)` into the
quarantine and, exactly when the push evicted a base, hand that base to the
platform `free` primitive.  On a miss: `double_free` if the quarantine
contains the address, else `invalid_free`, both fatal. -/
def dealloc_inner (s : SanState) (ptr : Nat) (expected_kind : AllocKind) :
    Except Fatal SanState :=
  if ptr = 0 then Except.ok s
  else
    match (s.tracker.remove ptr).2 with
    | some (tracked_size, tracked_kind) =>
      if kind_compatible tracked_kind expected_kind = false then
        Except.error (Fatal.mismatched_dealloc ptr tracked_kind expected_kind)
      else
        match check_canaries s.mem (ptr - REDZONE_SIZE) tracked_size ptr with
        | some f => Except.error f
        | none =>
          let m2 := poison s.mem ptr tracked_size
          let pr := s.quarantine.push ptr (ptr - REDZONE_SIZE) tracked_size
          Except.ok
            { tracker := (s.tracker.remove ptr).1
            , quarantine := pr.1
            , mem := m2
            , freed := s.freed ++ pr.2.toList }
    | none =>
      if s.quarantine.contains ptr then Except.error (Fatal.double_free ptr)
      else Except.error (Fatal.invalid_free ptr)

/-- Embeds `sanitized_dealloc` forwards to `dealloc_inner` with `AllocKind::Rust`. -/
def sanitized_dealloc (s : SanState) (ptr : Nat) : Except Fatal SanState :=
  dealloc_inner s ptr AllocKind.Rust

/-- Embeds `core::ptr::copy_nonoverlapping(src, dst, n)` on the byte map (the
source guarantees the two regions are disjoint). -/
def copyNonoverlapping (m : Mem) (src dst n : Nat) : Mem :=
  fun a => if dst ≤ a ∧ a < dst + n then m (src + (a - dst)) else m a

/-- Embeds `sanitized_realloc`, with the platform `malloc` result for the inner
`sanitized_alloc` supplied as `base`.  Fresh sanitized allocation of
`new_size`; on null return null; copy `min(old_size, new_size)` bytes from
the old user pointer; sanitized-deallocate the old pointer; return the new
pointer. -/
def sanitized_realloc (s : SanState) (ptr old_size new_size base : Nat) :
    Except Fatal (Nat × SanState) :=
  let r := sanitized_alloc s new_size base
  if r.ret = 0 then Except.ok (0, r.state)
  else
    let copy_size := if old_size < new_size then old_size else new_size
    let m2 := copyNonoverlapping r.state.mem ptr r.ret copy_size
    let s1 : SanState := { r.state with mem := m2 }
    match sanitized_dealloc s1 ptr with
    | Except.error f => Except.error f
    | Except.ok s2 => Except.ok (r.ret, s2)

/-! ## Specification-side definitions used only in theorem statements -/

/-- Value of one lowercase hex digit byte. -/
def hexVal (b : Nat) : Nat := if b ≤ 57 then b - 48 else b - 87

/-- The byte is a lowercase hexadecimal digit. -/
def isHexDigitByte (b : Nat) : Prop := (48 ≤ b ∧ b ≤ 57) ∨ (97 ≤ b ∧ b ≤ 102)

/-- Decimal value of a big-endian list of hex digit bytes. -/
def parseHex (l : List Nat) : Nat := l.foldl (fun acc b => acc * 16 + hexVal b) 0

/-- Decimal value of a big-endian list of decimal digit bytes. -/
def parseDec (l : List Nat) : Nat := l.foldl (fun acc b => acc * 10 + (b - 48)) 0

/-- Fold a sequence of quarantine pushes, keeping only the states. -/
def pushMany (s : QuarantineInner) (ops : List (Nat × Nat × Nat)) : QuarantineInner :=
  ops.foldl (fun t e => (t.push e.1 e.2.1 e.2.2).1) s

/-- The structural invariant of reachable quarantine states: the write
position is inside the ring, the live count never exceeds capacity, and
before the ring first wraps the write position equals the live count. -/
def QInv (s : QuarantineInner) : Prop :=
  s.pos < QCAPACITY ∧ s.len ≤ QCAPACITY ∧ (s.len < QCAPACITY → s.pos = s.len)

/-- Number of `Occupied` slots of a slot array. -/
def occCountF (f : Nat → TEntry) : Nat :=
  ((Finset.range TCAPACITY).filter (fun i => (f i).state = SlotState.Occupied)).card

/-- Number of `Occupied` slots of a tracker. -/
def occCount (t : TrackerInner) : Nat := occCountF t.entries

/-- Tracker invariant (iii): `count` equals the number of Occupied slots. -/
def Tinv (t : TrackerInner) : Prop := t.count = occCount t

/-- One tracker-facing operation of the sanitized pipeline: the `insert`
performed by an allocation, or the `remove` performed by a free. -/
inductive TrackOp where
  | alloc (addr size : Nat) (kind : AllocKind)
  | free (addr : Nat)

/-- Run a sequence of tracker operations. -/
def runOps (t : TrackerInner) : List TrackOp → TrackerInner
  | [] => t
  | TrackOp.alloc a sz k :: rest => runOps (t.insert a sz k) rest
  | TrackOp.free a :: rest => runOps ((t.remove a).1) rest

/-- The side conditions of spec property 8.1 along a run: every allocation
happens with fewer than 16384 live allocations (so its insert is not
dropped) and every free hits the tracker (no fatal report). -/
def Admissible (t : TrackerInner) : List TrackOp → Prop
  | [] => True
  | TrackOp.alloc a sz k :: rest =>
      occCount t < TCAPACITY ∧ Admissible (t.insert a sz k) rest
  | TrackOp.free a :: rest =>
      ((t.remove a).2).isSome = true ∧ Admissible ((t.remove a).1) rest

/-- Number of outstanding allocations after a sequence of operations,
starting from `c` outstanding. -/
def outstandingFrom (c : Nat) : List TrackOp → Nat
  | [] => c
  | TrackOp.alloc _ _ _ :: rest => outstandingFrom (c + 1) rest
  | TrackOp.free _ :: rest => outstandingFrom (c - 1) rest

/-- Number of outstanding allocations after a sequence of operations. -/
def outstanding (ops : List TrackOp) : Nat := outstandingFrom 0 ops

/-- A concrete memory for witnesses: intact canaries around a 4-byte user
region at address 100 (raw base 84), arbitrary byte 7 elsewhere. -/
def memW : Mem :=
  fun a => if (84 ≤ a ∧ a < 100) ∨ (104 ≤ a ∧ a < 120) then 0xAB else 7

/-- A concrete state for witnesses: one live 4-byte allocation at user
address 100. -/
def stateW1 : SanState :=
  { tracker := TrackerInner.new.insert 100 4 AllocKind.Rust
  , quarantine := QuarantineInner.new
  , mem := memW
  , freed := [] }

/-! ## Helper lemmas -/

theorem writeBytes_in (m : Mem) (p v n a : Nat) (h1 : p ≤ a) (h2 : a < p + n) :
    writeBytes m p v n a = v := by
  simp [writeBytes, h1, h2]

theorem writeBytes_out (m : Mem) (p v n a : Nat) (h : a < p ∨ p + n ≤ a) :
    writeBytes m p v n a = m a := by
  have : ¬ (p ≤ a ∧ a < p + n) := by omega
  simp [writeBytes, this]

theorem kind_compatible_refl (k : AllocKind) : kind_compatible k k = true := by
  cases k <;> rfl

/-! ## C10 — realloc propagates a null fresh allocation, changing nothing -/

/-- C10: when the platform `malloc` inside the fresh `sanitized_alloc`
returns null, `sanitized_realloc` returns null and the whole sanitizer
state — tracker, quarantine, memory and platform-free log — is exactly the
pre-call state: nothing is copied, poisoned, pushed or freed. -/
theorem sanitized_realloc_null_spec (s : SanState) (ptr old_size new_size : Nat) :
    sanitized_realloc s ptr old_size new_size 0 = Except.ok (0, s) := rfl

/-! ## C5 — sanitized_alloc geometry and canaries -/

/-- C5: for an allocation of user size `S` for which the platform returns a
non-null `base`, `sanitized_alloc` requests `S + 32` bytes, returns
`base + 16`, and afterwards each of the 16 bytes immediately before the
returned pointer and each of the 16 bytes starting at the returned pointer
plus `S` holds the canary byte `0xAB`. -/
theorem sanitized_alloc_spec (s : SanState) (S base : Nat) (hb : base ≠ 0) :
    (sanitized_alloc s S base).requested = S + 32 ∧
    (sanitized_alloc s S base).ret = base + 16 ∧
    (∀ i, i < 16 → (sanitized_alloc s S base).state.mem (base + i) = 0xAB) ∧
    (∀ i, i < 16 → (sanitized_alloc s S base).state.mem (base + 16 + S + i) = 0xAB) := by
  unfold sanitized_alloc
  rw [if_neg hb]
  refine ⟨?_, rfl, ?_, ?_⟩
  · show total_size S = S + 32
    simp only [total_size, REDZONE_SIZE]
    omega
  · intro i hi
    show fill_canaries s.mem base S (base + i) = 0xAB
    unfold fill_canaries
    simp only [REDZONE_SIZE, CANARY_BYTE]
    rw [writeBytes_out _ _ _ _ _ (by omega), writeBytes_in _ _ _ _ _ (by omega) (by omega)]
  · intro i hi
    show fill_canaries s.mem base S (base + 16 + S + i) = 0xAB
    unfold fill_canaries
    simp only [REDZONE_SIZE, CANARY_BYTE]
    rw [writeBytes_in _ _ _ _ _ (by omega) (by omega)]

/-- Witness for C5 at a concrete input. -/
theorem sanitized_alloc_spec_witness :
    (1000 : Nat) ≠ 0 ∧
    ((sanitized_alloc (SanState.init (fun _ => 0)) 8 1000).requested = 8 + 32 ∧
     (sanitized_alloc (SanState.init (fun _ => 0)) 8 1000).ret = 1000 + 16 ∧
     (∀ i, i < 16 →
       (sanitized_alloc (SanState.init (fun _ => 0)) 8 1000).state.mem (1000 + i) = 0xAB) ∧
     (∀ i, i < 16 →
       (sanitized_alloc (SanState.init (fun _ => 0)) 8 1000).state.mem (1000 + 16 + 8 + i) = 0xAB)) :=
  ⟨by decide, sanitized_alloc_spec (SanState.init (fun _ => 0)) 8 1000 (by decide)⟩

/-! ## C8 — a zero-leak run emits nothing -/

/-- C8: when the tracker's `count` is zero, `report_leaks` emits nothing at
all — no banner, no leak lines, no trailer. -/
theorem report_leaks_silent (t : TrackerInner) (h : t.count = 0) :
    t.report_leaks = [] := by
  simp [TrackerInner.report_leaks, h]

/-- Witness for C8 on the initial tracker. -/
theorem report_leaks_silent_witness :
    TrackerInner.new.count = 0 ∧ TrackerInner.new.report_leaks = [] :=
  ⟨rfl, report_leaks_silent TrackerInner.new rfl⟩

/-! ## C3 — quarantine push -/

/-- C3: a `push` on a state with `len < 256` returns `none` and increments
`len`; on a state with `len = 256` it returns the `base_addr` of the entry
at the write position (the oldest live entry) and keeps `len`; in both
cases it overwrites exactly the slot at `pos` with the new entry and
advances `pos` modulo 256. -/
theorem quarantine_push_spec (s : QuarantineInner) (u b z : Nat) :
    (s.len < QCAPACITY →
      (s.push u b z).2 = none ∧ (s.push u b z).1.len = s.len + 1) ∧
    (s.len = QCAPACITY →
      (s.push u b z).2 = some (s.ring s.pos).base_addr ∧
      (s.push u b z).1.len = s.len) ∧
    (s.push u b z).1.ring s.pos = ⟨u, b, z⟩ ∧
    (∀ j, j ≠ s.pos → (s.push u b z).1.ring j = s.ring j) ∧
    (s.push u b z).1.pos = (s.pos + 1) % QCAPACITY := by
  refine ⟨?_, ?_, ?_, ?_, rfl⟩
  · intro h
    have : ¬ s.len = QCAPACITY := by omega
    simp [QuarantineInner.push, this]
  · intro h
    simp [QuarantineInner.push, h]
  · simp [QuarantineInner.push, updRing]
  · intro j hj
    simp [QuarantineInner.push, updRing, hj]

/-- Witness for C3 on the fresh quarantine. -/
theorem quarantine_push_spec_witness :
    QuarantineInner.new.len < QCAPACITY ∧
    ((QuarantineInner.new.push 5 4 1).2 = none ∧
     (QuarantineInner.new.push 5 4 1).1.len = QuarantineInner.new.len + 1) :=
  ⟨by decide, (quarantine_push_spec QuarantineInner.new 5 4 1).1 (by decide)⟩

/-! ## C2 — free of an untracked address is fatal -/

/-- C2: a deallocation of a non-null pointer whose address the tracker does
not hold never returns: it is the `double_free` fatal report when the
quarantine currently contains the address and the `invalid_free` fatal
report otherwise.  (A `Fatal` value models writing the report to stderr and
then invoking the platform abort primitive.) -/
theorem dealloc_inner_miss_spec (s : SanState) (ptr : Nat) (k : AllocKind)
    (hp : ptr ≠ 0) (hrem : (s.tracker.remove ptr).2 = none) :
    (s.quarantine.contains ptr = true →
      dealloc_inner s ptr k = Except.error (Fatal.double_free ptr)) ∧
    (s.quarantine.contains ptr = false →
      dealloc_inner s ptr k = Except.error (Fatal.invalid_free ptr)) := by
  constructor <;> intro h <;> simp [dealloc_inner, hp, hrem, h]

/-- Witness for C2: freeing an address never allocated on a fresh state. -/
theorem dealloc_inner_miss_spec_witness :
    ((7 : Nat) ≠ 0 ∧ ((SanState.init (fun _ => 0)).tracker.remove 7).2 = none) ∧
    (((SanState.init (fun _ => 0)).quarantine.contains 7 = true →
      dealloc_inner (SanState.init (fun _ => 0)) 7 AllocKind.Rust =
        Except.error (Fatal.double_free 7)) ∧
     ((SanState.init (fun _ => 0)).quarantine.contains 7 = false →
      dealloc_inner (SanState.init (fun _ => 0)) 7 AllocKind.Rust =
        Except.error (Fatal.invalid_free 7))) :=
  ⟨⟨by decide, by decide⟩,
    dealloc_inner_miss_spec (SanState.init (fun _ => 0)) 7 AllocKind.Rust
      (by decide) (by decide)⟩

/-! ## C1 — the hit path of dealloc_inner -/

/-- C1: deallocating a non-null pointer found in the tracker with the
expected kind removes the tracker entry, checks the canaries at
`base = ptr - 16` (the operation is the fatal overflow report exactly on
corruption), overwrites the `size` user bytes with the poison byte `0xFE`
and nothing else, pushes `(ptr, base, size)` into the quarantine, and
invokes the platform free primitive exactly when the push evicted a base —
namely on the pre-push entry at the write position, which is never the base
of the block just freed as long as that base is not among the live
quarantine slots. -/
theorem dealloc_inner_hit_spec (s : SanState) (ptr size : Nat) (kd : AllocKind)
    (hp : ptr ≠ 0)
    (hrem : (s.tracker.remove ptr).2 = some (size, kd))
    (hqpos : s.quarantine.pos < QCAPACITY) :
    (∀ f, check_canaries s.mem (ptr - REDZONE_SIZE) size ptr = some f →
      dealloc_inner s ptr kd = Except.error f) ∧
    (check_canaries s.mem (ptr - REDZONE_SIZE) size ptr = none →
      dealloc_inner s ptr kd = Except.ok
        { tracker := (s.tracker.remove ptr).1
        , quarantine := (s.quarantine.push ptr (ptr - REDZONE_SIZE) size).1
        , mem := poison s.mem ptr size
        , freed := s.freed ++ ((s.quarantine.push ptr (ptr - REDZONE_SIZE) size).2).toList }) ∧
    (∀ a, ptr ≤ a → a < ptr + size → poison s.mem ptr size a = POISON_BYTE) ∧
    (∀ a, a < ptr ∨ ptr + size ≤ a → poison s.mem ptr size a = s.mem a) ∧
    (∀ b2, (s.quarantine.push ptr (ptr - REDZONE_SIZE) size).2 = some b2 →
      s.quarantine.len = QCAPACITY ∧
      b2 = (s.quarantine.ring s.quarantine.pos).base_addr) ∧
    ((∀ i, i < s.quarantine.len → (s.quarantine.ring i).base_addr ≠ ptr - REDZONE_SIZE) →
      ∀ b2, (s.quarantine.push ptr (ptr - REDZONE_SIZE) size).2 = some b2 →
        b2 ≠ ptr - REDZONE_SIZE) := by
  have h5 : ∀ b2, (s.quarantine.push ptr (ptr - REDZONE_SIZE) size).2 = some b2 →
      s.quarantine.len = QCAPACITY ∧
      b2 = (s.quarantine.ring s.quarantine.pos).base_addr := by
    intro b2 hb2
    by_cases hl : s.quarantine.len = QCAPACITY
    · simp [QuarantineInner.push, hl] at hb2
      exact ⟨hl, hb2.symm⟩
    · simp [QuarantineInner.push, hl] at hb2
  refine ⟨?_, ?_, ?_, ?_, h5, ?_⟩
  · intro f hf
    simp [dealloc_inner, hp, hrem, kind_compatible_refl, hf]
  · intro h0
    simp [dealloc_inner, hp, hrem, kind_compatible_refl, h0]
  · intro a h1 h2
    exact writeBytes_in s.mem ptr POISON_BYTE size a h1 h2
  · intro a h
    exact writeBytes_out s.mem ptr POISON_BYTE size a h
  · intro hq b2 hb2
    obtain ⟨hl, he⟩ := h5 b2 hb2
    have := hq s.quarantine.pos (by omega)
    omega

/-- Witness for C1 at a concrete state with one live allocation. -/
theorem dealloc_inner_hit_spec_witness :
    ((100 : Nat) ≠ 0 ∧
     (stateW1.tracker.remove 100).2 = some (4, AllocKind.Rust) ∧
     stateW1.quarantine.pos < QCAPACITY) ∧
    ((∀ f, check_canaries stateW1.mem (100 - REDZONE_SIZE) 4 100 = some f →
      dealloc_inner stateW1 100 AllocKind.Rust = Except.error f) ∧
    (check_canaries stateW1.mem (100 - REDZONE_SIZE) 4 100 = none →
      dealloc_inner stateW1 100 AllocKind.Rust = Except.ok
        { tracker := (stateW1.tracker.remove 100).1
        , quarantine := (stateW1.quarantine.push 100 (100 - REDZONE_SIZE) 4).1
        , mem := poison stateW1.mem 100 4
        , freed := stateW1.freed ++
            ((stateW1.quarantine.push 100 (100 - REDZONE_SIZE) 4).2).toList }) ∧
    (∀ a, 100 ≤ a → a < 100 + 4 → poison stateW1.mem 100 4 a = POISON_BYTE) ∧
    (∀ a, a < 100 ∨ 100 + 4 ≤ a → poison stateW1.mem 100 4 a = stateW1.mem a) ∧
    (∀ b2, (stateW1.quarantine.push 100 (100 - REDZONE_SIZE) 4).2 = some b2 →
      stateW1.quarantine.len = QCAPACITY ∧
      b2 = (stateW1.quarantine.ring stateW1.quarantine.pos).base_addr) ∧
    ((∀ i, i < stateW1.quarantine.len →
        (stateW1.quarantine.ring i).base_addr ≠ 100 - REDZONE_SIZE) →
      ∀ b2, (stateW1.quarantine.push 100 (100 - REDZONE_SIZE) 4).2 = some b2 →
        b2 ≠ 100 - REDZONE_SIZE)) :=
  ⟨⟨by decide, by decide, by decide⟩,
    dealloc_inner_hit_spec stateW1 100 4 AllocKind.Rust (by decide) (by decide) (by decide)⟩

/-! ## C9 — the diagnostic formatters -/

theorem format_hex_digits_length (k : Nat) : ∀ v, (format_hex_digits k v).length = k := by
  induction k with
  | zero => intro v; rfl
  | succ k ih => intro v; simp [format_hex_digits, ih]

theorem hexVal_hexDigitByte (d : Nat) (h : d < 16) : hexVal (hexDigitByte d) = d := by
  simp only [hexVal, hexDigitByte]
  split_ifs <;> omega

theorem parseHex_append (l : List Nat) (d : Nat) :
    parseHex (l ++ [d]) = parseHex l * 16 + hexVal d := by
  simp [parseHex, List.foldl_append]

theorem parseHex_format_hex_digits (k : Nat) :
    ∀ v, parseHex (format_hex_digits k v) = v % 16 ^ k := by
  induction k with
  | zero => intro v; simp [format_hex_digits, parseHex, Nat.mod_one]
  | succ k ih =>
    intro v
    rw [format_hex_digits, parseHex_append, ih,
      hexVal_hexDigitByte _ (Nat.mod_lt _ (by omega)), pow_succ,
      mul_comm (16 ^ k) 16, Nat.mod_mul]
    omega

theorem format_hex_digits_range (k : Nat) :
    ∀ v b, b ∈ format_hex_digits k v → isHexDigitByte b := by
  induction k with
  | zero => intro v b hb; simp [format_hex_digits] at hb
  | succ k ih =>
    intro v b hb
    rw [format_hex_digits] at hb
    rcases List.mem_append.mp hb with h1 | h1
    · exact ih _ b h1
    · have hd : v % 16 < 16 := Nat.mod_lt _ (by omega)
      simp at h1
      subst h1
      simp only [isHexDigitByte, hexDigitByte]
      split_ifs <;> omega

theorem parseDec_append (l : List Nat) (d : Nat) :
    parseDec (l ++ [d]) = parseDec l * 10 + (d - 48) := by
  simp [parseDec, List.foldl_append]

theorem parseDec_format_dec_loop (v : Nat) : parseDec (format_dec_loop v) = v := by
  induction v using Nat.strong_induction_on with
  | _ v ih =>
    rw [format_dec_loop]
    split
    · rename_i h
      subst h
      simp [parseDec]
    · rename_i h
      rw [parseDec_append, ih (v / 10) (Nat.div_lt_self (Nat.pos_of_ne_zero h) (by omega))]
      omega

theorem format_dec_loop_ne_nil (v : Nat) (h : v ≠ 0) : format_dec_loop v ≠ [] := by
  rw [format_dec_loop]
  simp [h]

theorem format_dec_loop_digits (v : Nat) : ∀ b ∈ format_dec_loop v, 48 ≤ b ∧ b ≤ 57 := by
  induction v using Nat.strong_induction_on with
  | _ v ih =>
    intro b hb
    rw [format_dec_loop] at hb
    split at hb
    · simp at hb
    · rename_i h
      rcases List.mem_append.mp hb with h1 | h1
      · exact ih (v / 10) (Nat.div_lt_self (Nat.pos_of_ne_zero h) (by omega)) b h1
      · simp at h1
        omega

theorem format_dec_loop_head (v : Nat) : ∀ l, v ≠ 0 → format_dec_loop v ≠ 48 :: l := by
  induction v using Nat.strong_induction_on with
  | _ v ih =>
    intro l hv
    rw [format_dec_loop, dif_neg hv]
    by_cases h10 : v / 10 = 0
    · have hnil : format_dec_loop (v / 10) = [] := by
        rw [h10, format_dec_loop]
        rfl
      rw [hnil, List.nil_append]
      intro heq
      injection heq with h1 h2
      omega
    · obtain ⟨b, t, hbt⟩ : ∃ b t, format_dec_loop (v / 10) = b :: t := by
        cases hx : format_dec_loop (v / 10) with
        | nil => exact absurd hx (format_dec_loop_ne_nil _ h10)
        | cons b t => exact ⟨b, t, rfl⟩
      rw [hbt, List.cons_append]
      intro heq
      injection heq with h1 h2
      exact ih (v / 10) (Nat.div_lt_self (Nat.pos_of_ne_zero hv) (by omega)) t h10 (h1 ▸ hbt)

/-- C9: for every `usize` value `v`, `format_hex v` is exactly 18 bytes —
`'0'`, `'x'`, then 16 zero-padded lowercase hexadecimal digit bytes whose
hex reading is `v` — and `format_dec v` is a non-empty decimal digit string
with no leading zero (the single byte `'0'` exactly for `v = 0`) whose
decimal reading is `v`. -/
theorem formatters_spec (v : Nat) (hv : v < 2 ^ 64) :
    (format_hex v).length = 18 ∧
    (format_hex v).take 2 = [48, 120] ∧
    (∀ b ∈ (format_hex v).drop 2, isHexDigitByte b) ∧
    parseHex ((format_hex v).drop 2) = v ∧
    (v = 0 → format_dec v = [48]) ∧
    format_dec v ≠ [] ∧
    (v ≠ 0 → ∀ l, format_dec v ≠ 48 :: l) ∧
    (∀ b ∈ format_dec v, 48 ≤ b ∧ b ≤ 57) ∧
    parseDec (format_dec v) = v := by
  have hdrop : (format_hex v).drop 2 = format_hex_digits 16 v := rfl
  refine ⟨?_, rfl, ?_, ?_, ?_, ?_, ?_, ?_, ?_⟩
  · simp [format_hex, format_hex_digits_length]
  · rw [hdrop]
    exact fun b hb => format_hex_digits_range 16 v b hb
  · rw [hdrop, parseHex_format_hex_digits]
    exact Nat.mod_eq_of_lt (by norm_num at hv ⊢; omega)
  · intro h0
    simp [format_dec, h0]
  · unfold format_dec
    split
    · simp
    · rename_i h
      exact format_dec_loop_ne_nil v h
  · intro hvne l
    unfold format_dec
    rw [if_neg hvne]
    exact format_dec_loop_head v l hvne
  · intro b hb
    unfold format_dec at hb
    split at hb
    · simp at hb
      omega
    · exact format_dec_loop_digits v b hb
  · unfold format_dec
    split
    · rename_i h
      subst h
      simp [parseDec]
    · exact parseDec_format_dec_loop v

/-- Witness for C9 at a concrete value. -/
theorem formatters_spec_witness :
    (3 : Nat) < 2 ^ 64 ∧
    ((format_hex 3).length = 18 ∧
     (format_hex 3).take 2 = [48, 120] ∧
     (∀ b ∈ (format_hex 3).drop 2, isHexDigitByte b) ∧
     parseHex ((format_hex 3).drop 2) = 3 ∧
     ((3 : Nat) = 0 → format_dec 3 = [48]) ∧
     format_dec 3 ≠ [] ∧
     ((3 : Nat) ≠ 0 → ∀ l, format_dec 3 ≠ 48 :: l) ∧
     (∀ b ∈ format_dec 3, 48 ≤ b ∧ b ≤ 57) ∧
     parseDec (format_dec 3) = 3) :=
  ⟨by norm_num, formatters_spec 3 (by norm_num)⟩

/-! ## C6 — quarantine membership survives up to 255 subsequent pushes -/

theorem QInv_push (t : QuarantineInner) (u b z : Nat) (h : QInv t) :
    QInv (t.push u b z).1 := by
  obtain ⟨h1, h2, h3⟩ := h
  have hlen : (t.push u b z).1.len = if t.len = QCAPACITY then t.len else t.len + 1 := rfl
  have hpos : (t.push u b z).1.pos = (t.pos + 1) % QCAPACITY := rfl
  refine ⟨?_, ?_, ?_⟩
  · rw [hpos]
    exact Nat.mod_lt _ (by decide)
  · rw [hlen]
    split <;> omega
  · rw [hlen, hpos]
    split
    · omega
    · rename_i hne
      intro hlt
      have hp := h3 (by omega)
      rw [hp, Nat.mod_eq_of_lt (by omega)]

theorem contains_of_slot (s : QuarantineInner) (q p : Nat)
    (hq : q < s.len) (hring : (s.ring q).user_addr = p) : s.contains p = true := by
  unfold QuarantineInner.contains
  rw [List.any_eq_true]
  exact ⟨q, List.mem_range.mpr hq, by simp [hring]⟩

theorem pushMany_slot (p : Nat) (ops : List (Nat × Nat × Nat)) :
    ∀ t q, QInv t → q < t.len → (t.ring q).user_addr = p →
    (∀ j, j < ops.length → (t.pos + j) % QCAPACITY ≠ q) →
    q < (pushMany t ops).len ∧ ((pushMany t ops).ring q).user_addr = p := by
  induction ops with
  | nil =>
    intro t q _ h2 h3 _
    exact ⟨h2, h3⟩
  | cons e rest ih =>
    intro t q hinv h2 h3 h4
    have hstep : pushMany t (e :: rest) = pushMany (t.push e.1 e.2.1 e.2.2).1 rest := rfl
    rw [hstep]
    have hpos0 : (t.pos + 0) % QCAPACITY = t.pos := by
      rw [Nat.add_zero, Nat.mod_eq_of_lt hinv.1]
    have hq_ne : t.pos ≠ q := by
      have h0 := h4 0 (by simp)
      rwa [hpos0] at h0
    have hlen1 : (t.push e.1 e.2.1 e.2.2).1.len =
        if t.len = QCAPACITY then t.len else t.len + 1 := rfl
    have hring1 : (t.push e.1 e.2.1 e.2.2).1.ring q = t.ring q := by
      show updRing t.ring t.pos ⟨e.1, e.2.1, e.2.2⟩ q = t.ring q
      unfold updRing
      rw [if_neg (Ne.symm hq_ne)]
    apply ih (t.push e.1 e.2.1 e.2.2).1 q (QInv_push t e.1 e.2.1 e.2.2 hinv)
    · rw [hlen1]
      split <;> omega
    · rw [hring1]
      exact h3
    · intro j hj
      have hpos1 : (t.push e.1 e.2.1 e.2.2).1.pos = (t.pos + 1) % QCAPACITY := rfl
      rw [hpos1, Nat.mod_add_mod, show t.pos + 1 + j = t.pos + (j + 1) by omega]
      exact h4 (j + 1) (by simpa using Nat.succ_lt_succ hj)

/-- C6: after a push of user address `p`, `contains p` is still true after
any sequence of at most 255 further pushes of addresses different from `p`
(the quarantine state satisfying the reachable-state invariant `QInv`). -/
theorem quarantine_contains_stable (s : QuarantineInner) (hinv : QInv s)
    (p b z : Nat) (ops : List (Nat × Nat × Nat))
    (hops : ops.length ≤ QCAPACITY - 1)
    (hne : ∀ e ∈ ops, e.1 ≠ p) :
    (pushMany ((s.push p b z).1) ops).contains p = true := by
  obtain ⟨hpos, hlen, hpl⟩ := hinv
  have hlent : (s.push p b z).1.len = if s.len = QCAPACITY then s.len else s.len + 1 := rfl
  have hpost : (s.push p b z).1.pos = (s.pos + 1) % QCAPACITY := rfl
  have hringt : (s.push p b z).1.ring s.pos = ⟨p, b, z⟩ := by
    show updRing s.ring s.pos ⟨p, b, z⟩ s.pos = _
    unfold updRing
    rw [if_pos rfl]
  have hqlt : s.pos < (s.push p b z).1.len := by
    rw [hlent]
    split
    · omega
    · rename_i h
      have hp2 := hpl (by omega)
      omega
  have hops2 : ops.length ≤ 255 := hops
  have hpos2 : s.pos < 256 := hpos
  have harith : ∀ j, j < ops.length → ((s.push p b z).1.pos + j) % QCAPACITY ≠ s.pos := by
    intro j hj
    rw [hpost, Nat.mod_add_mod, show s.pos + 1 + j = s.pos + (j + 1) by omega]
    show (s.pos + (j + 1)) % 256 ≠ s.pos
    omega
  have hmain := pushMany_slot p ops (s.push p b z).1 s.pos
    (QInv_push s p b z ⟨hpos, hlen, hpl⟩) hqlt (by rw [hringt]) harith
  exact contains_of_slot _ s.pos p hmain.1 hmain.2

/-- Witness for C6: one unrelated push after the push of address 5. -/
theorem quarantine_contains_stable_witness :
    (QInv QuarantineInner.new ∧
     ([((6 : Nat), (0 : Nat), (0 : Nat))].length ≤ QCAPACITY - 1) ∧
     (∀ e ∈ [((6 : Nat), (0 : Nat), (0 : Nat))], e.1 ≠ 5)) ∧
    (pushMany ((QuarantineInner.new.push 5 4 1).1) [(6, 0, 0)]).contains 5 = true :=
  ⟨⟨⟨by decide, by decide, fun _ => rfl⟩, by decide, by decide⟩,
    quarantine_contains_stable QuarantineInner.new ⟨by decide, by decide, fun _ => rfl⟩
      5 4 1 [(6, 0, 0)] (by decide) (by decide)⟩

/-! ## C4 — the tracker count invariant -/

theorem card_filter_point (s : Finset Nat) (i : Nat) (hi : i ∈ s)
    (p q : Nat → Prop) [DecidablePred p] [DecidablePred q]
    (hpq : ∀ j, j ≠ i → (p j ↔ q j)) :
    (s.filter q).card + (if p i then 1 else 0)
      = (s.filter p).card + (if q i then 1 else 0) := by
  have hcard : ∀ (r : Nat → Prop) (_ : DecidablePred r),
      (s.filter r).card = (((s.erase i).filter r).card + if r i then 1 else 0) := by
    intro r _
    conv_lhs => rw [← Finset.insert_erase hi]
    rw [Finset.filter_insert]
    split
    · rw [Finset.card_insert_of_not_mem
        (fun hm => (Finset.not_mem_erase i s) (Finset.mem_of_mem_filter i hm))]
    · simp
  have hcong : ((s.erase i).filter p).card = ((s.erase i).filter q).card := by
    rw [Finset.filter_congr (fun j hj => hpq j (Finset.ne_of_mem_erase hj))]
  rw [hcard p inferInstance, hcard q inferInstance, hcong]
  ring

theorem occCountF_upd_occ (f : Nat → TEntry) (i : Nat) (hi : i < TCAPACITY) (e : TEntry)
    (hold : ¬ (f i).state = SlotState.Occupied) (hnew : e.state = SlotState.Occupied) :
    occCountF (updSlot f i e) = occCountF f + 1 := by
  have h := card_filter_point (Finset.range TCAPACITY) i (Finset.mem_range.mpr hi)
    (fun j => (f j).state = SlotState.Occupied)
    (fun j => ((updSlot f i e) j).state = SlotState.Occupied)
    (fun j hj => by
      show (f j).state = SlotState.Occupied ↔ (updSlot f i e j).state = SlotState.Occupied
      unfold updSlot
      rw [if_neg hj])
  rw [if_neg hold, if_pos (show ((updSlot f i e) i).state = SlotState.Occupied by
    unfold updSlot; rw [if_pos rfl]; exact hnew)] at h
  unfold occCountF
  omega

theorem occCountF_upd_tomb (f : Nat → TEntry) (i : Nat) (hi : i < TCAPACITY) (e : TEntry)
    (hold : (f i).state = SlotState.Occupied) (hnew : ¬ e.state = SlotState.Occupied) :
    occCountF (updSlot f i e) + 1 = occCountF f := by
  have h := card_filter_point (Finset.range TCAPACITY) i (Finset.mem_range.mpr hi)
    (fun j => (f j).state = SlotState.Occupied)
    (fun j => ((updSlot f i e) j).state = SlotState.Occupied)
    (fun j hj => by
      show (f j).state = SlotState.Occupied ↔ (updSlot f i e j).state = SlotState.Occupied
      unfold updSlot
      rw [if_neg hj])
  rw [if_pos hold, if_neg (show ¬ ((updSlot f i e) i).state = SlotState.Occupied by
    unfold updSlot; rw [if_pos rfl]; exact hnew)] at h
  unfold occCountF
  omega

theorem occCountF_pos (f : Nat → TEntry) (i : Nat) (hi : i < TCAPACITY)
    (h : (f i).state = SlotState.Occupied) : 1 ≤ occCountF f := by
  unfold occCountF
  exact Finset.card_pos.mpr
    ⟨i, Finset.mem_filter.mpr ⟨Finset.mem_range.mpr hi, h⟩⟩

theorem insertAux_dichotomy (t : TrackerInner) (a sz : Nat) (k : AllocKind) :
    ∀ fuel idx, idx < TCAPACITY →
    (t.insertAux a sz k idx fuel = t ∧
      ∀ j, j < fuel → (t.entries ((idx + j) % TCAPACITY)).state = SlotState.Occupied) ∨
    (∃ i, i < TCAPACITY ∧ ¬ (t.entries i).state = SlotState.Occupied ∧
      t.insertAux a sz k idx fuel =
        { entries := updSlot t.entries i
            { addr := a, size := sz, state := SlotState.Occupied, kind := k }
        , count := t.count + 1 }) := by
  intro fuel
  induction fuel with
  | zero =>
    intro idx _
    left
    exact ⟨rfl, fun j hj => absurd hj (by omega)⟩
  | succ fuel ih =>
    intro idx hidx
    rw [TrackerInner.insertAux]
    by_cases h : (t.entries idx).state = SlotState.Occupied
    · rw [if_pos h]
      rcases ih ((idx + 1) % TCAPACITY) (Nat.mod_lt _ (by decide)) with ⟨heq, hall⟩ | hex
      · left
        refine ⟨heq, ?_⟩
        intro j hj
        match j with
        | 0 => rw [Nat.add_zero, Nat.mod_eq_of_lt hidx]; exact h
        | j + 1 =>
          have hx := hall j (by omega)
          rwa [Nat.mod_add_mod, show idx + 1 + j = idx + (j + 1) by omega] at hx
      · right
        exact hex
    · rw [if_neg h]
      right
      exact ⟨idx, hidx, h, rfl⟩

theorem Tinv_insert (t : TrackerInner) (a sz : Nat) (k : AllocKind) (h : Tinv t) :
    Tinv (t.insert a sz k) := by
  unfold TrackerInner.insert
  rcases insertAux_dichotomy t a sz k TCAPACITY (TrackerInner.hash a % TCAPACITY)
      (Nat.mod_lt _ (by decide)) with ⟨heq, _⟩ | ⟨i, hi, hs, heq⟩
  · rw [heq]
    exact h
  · rw [heq]
    show t.count + 1 = occCountF (updSlot t.entries i _)
    rw [occCountF_upd_occ t.entries i hi _ hs rfl]
    unfold Tinv occCount at h
    omega

theorem insert_full_drop (t : TrackerInner) (a sz : Nat) (k : AllocKind)
    (hall : ∀ j, j < TCAPACITY → (t.entries j).state = SlotState.Occupied) :
    t.insert a sz k = t := by
  unfold TrackerInner.insert
  rcases insertAux_dichotomy t a sz k TCAPACITY (TrackerInner.hash a % TCAPACITY)
      (Nat.mod_lt _ (by decide)) with ⟨heq, _⟩ | ⟨i, hi, hs, _⟩
  · exact heq
  · exact absurd (hall i hi) hs

theorem insert_count_succ (t : TrackerInner) (a sz : Nat) (k : AllocKind)
    (hocc : occCount t < TCAPACITY) :
    (t.insert a sz k).count = t.count + 1 := by
  unfold TrackerInner.insert
  rcases insertAux_dichotomy t a sz k TCAPACITY (TrackerInner.hash a % TCAPACITY)
      (Nat.mod_lt _ (by decide)) with ⟨_, hall⟩ | ⟨i, _, _, heq⟩
  · exfalso
    have hstart : TrackerInner.hash a % TCAPACITY < TCAPACITY := Nat.mod_lt _ (by decide)
    have hallslots : ∀ m, m < TCAPACITY → (t.entries m).state = SlotState.Occupied := by
      intro m hm
      have hj : (TrackerInner.hash a % TCAPACITY +
          (m + TCAPACITY - TrackerInner.hash a % TCAPACITY) % TCAPACITY) % TCAPACITY = m := by
        simp only [TCAPACITY] at hstart hm ⊢
        omega
      have hx := hall ((m + TCAPACITY - TrackerInner.hash a % TCAPACITY) % TCAPACITY)
        (Nat.mod_lt _ (by decide))
      rwa [hj] at hx
    have hfull : occCount t = TCAPACITY := by
      unfold occCount occCountF
      rw [Finset.filter_true_of_mem (fun j hj => hallslots j (Finset.mem_range.mp hj))]
      exact Finset.card_range TCAPACITY
    omega
  · rw [heq]

theorem removeAux_dichotomy (t : TrackerInner) (a : Nat) :
    ∀ fuel idx, idx < TCAPACITY →
    (t.removeAux a idx fuel = (t, none)) ∨
    (∃ i, i < TCAPACITY ∧ (t.entries i).state = SlotState.Occupied ∧
      (t.entries i).addr = a ∧
      t.removeAux a idx fuel =
        ({ entries := updSlot t.entries i { t.entries i with state := SlotState.Tombstone }
         , count := t.count - 1 }, some ((t.entries i).size, (t.entries i).kind))) := by
  intro fuel
  induction fuel with
  | zero =>
    intro idx _
    left
    rfl
  | succ fuel ih =>
    intro idx hidx
    rw [TrackerInner.removeAux]
    by_cases h1 : (t.entries idx).state = SlotState.Occupied ∧ (t.entries idx).addr = a
    · rw [if_pos h1]
      right
      exact ⟨idx, hidx, h1.1, h1.2, rfl⟩
    · rw [if_neg h1]
      by_cases h2 : (t.entries idx).state = SlotState.Empty
      · rw [if_pos h2]
        left
        rfl
      · rw [if_neg h2]
        exact ih ((idx + 1) % TCAPACITY) (Nat.mod_lt _ (by decide))

theorem Tinv_remove (t : TrackerInner) (a : Nat) (h : Tinv t) : Tinv (t.remove a).1 := by
  unfold TrackerInner.remove
  rcases removeAux_dichotomy t a TCAPACITY (TrackerInner.hash a % TCAPACITY)
      (Nat.mod_lt _ (by decide)) with heq | ⟨i, hi, hs, _, heq⟩
  · rw [heq]
    exact h
  · rw [heq]
    show t.count - 1 = occCountF (updSlot t.entries i _)
    have hpos := occCountF_pos t.entries i hi hs
    have htomb := occCountF_upd_tomb t.entries i hi
      ⟨(t.entries i).addr, (t.entries i).size, SlotState.Tombstone, (t.entries i).kind⟩
      hs (by simp)
    unfold Tinv occCount at h
    omega

theorem remove_some_count (t : TrackerInner) (a : Nat) (pr : Nat × AllocKind)
    (hsome : (t.remove a).2 = some pr) : (t.remove a).1.count = t.count - 1 := by
  unfold TrackerInner.remove at hsome ⊢
  rcases removeAux_dichotomy t a TCAPACITY (TrackerInner.hash a % TCAPACITY)
      (Nat.mod_lt _ (by decide)) with heq | ⟨i, _, _, _, heq⟩
  · rw [heq] at hsome
    exact absurd hsome (by simp)
  · rw [heq]

theorem occCount_new : occCount TrackerInner.new = 0 := by
  unfold occCount occCountF TrackerInner.new
  rw [Finset.filter_false_of_mem, Finset.card_empty]
  intro j _
  simp [TEntry.EMPTY]

theorem Admissible_take (ops : List TrackOp) :
    ∀ t n, Admissible t ops → Admissible t (ops.take n) := by
  induction ops with
  | nil =>
    intro t n _
    rw [List.take_nil]
    exact trivial
  | cons op rest ih =>
    intro t n h
    cases n with
    | zero => exact trivial
    | succ n =>
      rw [List.take_succ_cons]
      cases op with
      | alloc a sz k =>
        obtain ⟨h1, h2⟩ := h
        exact ⟨h1, ih (t.insert a sz k) n h2⟩
      | free a =>
        obtain ⟨h1, h2⟩ := h
        exact ⟨h1, ih ((t.remove a).1) n h2⟩

theorem runOps_count (ops : List TrackOp) :
    ∀ t, Tinv t → Admissible t ops →
      Tinv (runOps t ops) ∧ (runOps t ops).count = outstandingFrom t.count ops := by
  induction ops with
  | nil =>
    intro t h _
    exact ⟨h, rfl⟩
  | cons op rest ih =>
    intro t h hadm
    cases op with
    | alloc a sz k =>
      obtain ⟨hlt, hrest⟩ := hadm
      have hrec := ih (t.insert a sz k) (Tinv_insert t a sz k h) hrest
      refine ⟨hrec.1, ?_⟩
      show (runOps (t.insert a sz k) rest).count = outstandingFrom (t.count + 1) rest
      rw [hrec.2, insert_count_succ t a sz k hlt]
    | free a =>
      obtain ⟨hhit, hrest⟩ := hadm
      have hrec := ih ((t.remove a).1) (Tinv_remove t a h) hrest
      refine ⟨hrec.1, ?_⟩
      show (runOps ((t.remove a).1) rest).count = outstandingFrom (t.count - 1) rest
      rcases Option.isSome_iff_exists.mp hhit with ⟨pr, hpr⟩
      rw [hrec.2, remove_some_count t a pr hpr]

/-- C4: the invariant "count = number of Occupied slots" holds for the
fresh tracker, is preserved by every insert — including an insert whose
full probe pass finds every slot Occupied, which leaves the tracker
unchanged — and by every remove; consequently, along any admissible
sequence of allocations and frees (never more than 16384 live, every free
a tracker hit), `count` equals the number of outstanding allocations after
every prefix. -/
theorem tracker_count_spec :
    Tinv TrackerInner.new ∧
    (∀ (t : TrackerInner) (a sz : Nat) (k : AllocKind),
      (∀ j, j < TCAPACITY → (t.entries j).state = SlotState.Occupied) →
      t.insert a sz k = t) ∧
    (∀ (t : TrackerInner) (a sz : Nat) (k : AllocKind), Tinv t → Tinv (t.insert a sz k)) ∧
    (∀ (t : TrackerInner) (a : Nat), Tinv t → Tinv (t.remove a).1) ∧
    (∀ ops : List TrackOp, Admissible TrackerInner.new ops →
      ∀ n, (runOps TrackerInner.new (ops.take n)).count = outstanding (ops.take n)) := by
  refine ⟨?_, ?_, ?_, ?_, ?_⟩
  · show TrackerInner.new.count = occCount TrackerInner.new
    rw [occCount_new]
    rfl
  · intro t a sz k hall
    exact insert_full_drop t a sz k hall
  · intro t a sz k h
    exact Tinv_insert t a sz k h
  · intro t a h
    exact Tinv_remove t a h
  · intro ops hadm n
    have h1 := Admissible_take ops TrackerInner.new n hadm
    have h2 := runOps_count (ops.take n) TrackerInner.new
      (show TrackerInner.new.count = occCount TrackerInner.new by rw [occCount_new]; rfl) h1
    rw [h2.2]
    rfl

/-- Witness for C4: an allocation at address 100 followed by its free. -/
theorem tracker_count_spec_witness :
    Admissible TrackerInner.new [TrackOp.alloc 100 4 AllocKind.Rust, TrackOp.free 100] ∧
    (runOps TrackerInner.new
        ([TrackOp.alloc 100 4 AllocKind.Rust, TrackOp.free 100].take 2)).count
      = outstanding ([TrackOp.alloc 100 4 AllocKind.Rust, TrackOp.free 100].take 2) := by
  have hadm : Admissible TrackerInner.new
      [TrackOp.alloc 100 4 AllocKind.Rust, TrackOp.free 100] := by
    refine ⟨?_, ?_, trivial⟩
    · rw [occCount_new]
      decide
    · decide
  exact ⟨hadm, tracker_count_spec.2.2.2.2 _ hadm 2⟩

/-! ## C7 — realloc preserves content and frees the old block -/

/-- C7: when the fresh sanitized allocation inside `sanitized_realloc`
succeeds (non-null `base`, disjoint from the old block), the call returns
the new user pointer `base + 16`; the first `min(old_size, new_size)` bytes
at the new pointer equal the bytes that were at the old pointer before the
call; and the old pointer has been taken through the sanitized
deallocation path — its tracker entry removed and `(ptr, base, size)`
pushed into the quarantine — before the new pointer is returned. -/
theorem sanitized_realloc_spec
    (s : SanState) (ptr old_size new_size base tsize : Nat)
    (hb : base ≠ 0)
    (hptr : REDZONE_SIZE ≤ ptr)
    (hrem : ((s.tracker.insert (base + REDZONE_SIZE) new_size AllocKind.Rust).remove ptr).2
        = some (tsize, AllocKind.Rust))
    (hd1 : ∀ i, i < total_size new_size →
        base + i < ptr - REDZONE_SIZE ∨ ptr + tsize + REDZONE_SIZE ≤ base + i)
    (hd2 : ∀ i, i < total_size new_size →
        base + i < ptr ∨ ptr + old_size ≤ base + i)
    (hcanp : ∀ i, i < REDZONE_SIZE → s.mem (ptr - REDZONE_SIZE + i) = CANARY_BYTE)
    (hcans : ∀ i, i < REDZONE_SIZE → s.mem (ptr + tsize + i) = CANARY_BYTE) :
    ∃ s2, sanitized_realloc s ptr old_size new_size base
        = Except.ok (base + REDZONE_SIZE, s2) ∧
      (∀ j, j < min old_size new_size →
        s2.mem (base + REDZONE_SIZE + j) = s.mem (ptr + j)) ∧
      s2.tracker
        = ((s.tracker.insert (base + REDZONE_SIZE) new_size AllocKind.Rust).remove ptr).1 ∧
      s2.quarantine = (s.quarantine.push ptr (ptr - REDZONE_SIZE) tsize).1 ∧
      s2.freed = s.freed ++
        ((s.quarantine.push ptr (ptr - REDZONE_SIZE) tsize).2).toList := by
  have hA : (REDZONE_SIZE : Nat) = 16 := rfl
  have htot : total_size new_size = REDZONE_SIZE + new_size + REDZONE_SIZE := rfl
  have hptr0 : ¬ ptr = 0 := by omega
  have hcpm : (if old_size < new_size then old_size else new_size) = min old_size new_size := by
    split <;> omega
  have hr : sanitized_alloc s new_size base
      = ⟨total_size new_size, base + REDZONE_SIZE,
         { s with mem := fill_canaries s.mem base new_size,
                  tracker := s.tracker.insert (base + REDZONE_SIZE) new_size AllocKind.Rust }⟩ := by
    unfold sanitized_alloc
    rw [if_neg hb]
  have hfill_out : ∀ x, (x < base ∨ base + total_size new_size ≤ x) →
      fill_canaries s.mem base new_size x = s.mem x := by
    intro x hx
    rw [htot] at hx
    unfold fill_canaries
    rw [writeBytes_out _ _ _ _ _ (by omega), writeBytes_out _ _ _ _ _ (by omega)]
  have hout : ∀ x, (x < base ∨ base + total_size new_size ≤ x) →
      copyNonoverlapping (fill_canaries s.mem base new_size) ptr (base + REDZONE_SIZE)
        (if old_size < new_size then old_size else new_size) x = s.mem x := by
    intro x hx
    have hx2 := hx
    rw [htot] at hx2
    unfold copyNonoverlapping
    rw [if_neg (by omega)]
    exact hfill_out x hx
  have hold_out : ∀ x, ptr - REDZONE_SIZE ≤ x → x < ptr + tsize + REDZONE_SIZE →
      copyNonoverlapping (fill_canaries s.mem base new_size) ptr (base + REDZONE_SIZE)
        (if old_size < new_size then old_size else new_size) x = s.mem x := by
    intro x h1 h2
    apply hout
    rw [htot]
    by_contra hcon
    push_neg at hcon
    have hd := hd1 (x - base) (by rw [htot]; omega)
    omega
  have hfill_old : ∀ x, ptr ≤ x → x < ptr + old_size →
      fill_canaries s.mem base new_size x = s.mem x := by
    intro x h1 h2
    apply hfill_out
    rw [htot]
    by_contra hcon
    push_neg at hcon
    have hd := hd2 (x - base) (by rw [htot]; omega)
    omega
  have hpre : ∀ i, i < REDZONE_SIZE →
      copyNonoverlapping (fill_canaries s.mem base new_size) ptr (base + REDZONE_SIZE)
        (if old_size < new_size then old_size else new_size) (ptr - REDZONE_SIZE + i)
      = CANARY_BYTE := by
    intro i hi
    rw [hold_out (ptr - REDZONE_SIZE + i) (by omega) (by omega)]
    exact hcanp i hi
  have hsuf : ∀ i, i < REDZONE_SIZE →
      copyNonoverlapping (fill_canaries s.mem base new_size) ptr (base + REDZONE_SIZE)
        (if old_size < new_size then old_size else new_size)
        (ptr - REDZONE_SIZE + REDZONE_SIZE + tsize + i)
      = CANARY_BYTE := by
    intro i hi
    rw [show ptr - REDZONE_SIZE + REDZONE_SIZE + tsize + i = ptr + tsize + i by omega,
      hold_out (ptr + tsize + i) (by omega) (by omega)]
    exact hcans i hi
  have hchk : check_canaries
      (copyNonoverlapping (fill_canaries s.mem base new_size) ptr (base + REDZONE_SIZE)
        (if old_size < new_size then old_size else new_size))
      (ptr - REDZONE_SIZE) tsize ptr = none := by
    unfold check_canaries
    have h1 : (List.range REDZONE_SIZE).any
        (fun i => copyNonoverlapping (fill_canaries s.mem base new_size) ptr
          (base + REDZONE_SIZE) (if old_size < new_size then old_size else new_size)
          (ptr - REDZONE_SIZE + i) != CANARY_BYTE) = false := by
      rw [List.any_eq_false]
      intro i hmem
      rw [List.mem_range] at hmem
      simp [hpre i hmem]
    have h2 : (List.range REDZONE_SIZE).any
        (fun i => copyNonoverlapping (fill_canaries s.mem base new_size) ptr
          (base + REDZONE_SIZE) (if old_size < new_size then old_size else new_size)
          (ptr - REDZONE_SIZE + REDZONE_SIZE + tsize + i) != CANARY_BYTE) = false := by
      rw [List.any_eq_false]
      intro i hmem
      rw [List.mem_range] at hmem
      simp [hsuf i hmem]
    simp [h1, h2]
  have hdeal : dealloc_inner
      { tracker := s.tracker.insert (base + REDZONE_SIZE) new_size AllocKind.Rust
      , quarantine := s.quarantine
      , mem := copyNonoverlapping (fill_canaries s.mem base new_size) ptr
          (base + REDZONE_SIZE) (if old_size < new_size then old_size else new_size)
      , freed := s.freed } ptr AllocKind.Rust
      = Except.ok
        { tracker := ((s.tracker.insert (base + REDZONE_SIZE) new_size AllocKind.Rust).remove
            ptr).1
        , quarantine := (s.quarantine.push ptr (ptr - REDZONE_SIZE) tsize).1
        , mem := poison
            (copyNonoverlapping (fill_canaries s.mem base new_size) ptr
              (base + REDZONE_SIZE) (if old_size < new_size then old_size else new_size))
            ptr tsize
        , freed := s.freed ++
            ((s.quarantine.push ptr (ptr - REDZONE_SIZE) tsize).2).toList } := by
    simp [dealloc_inner, hptr0, hrem, kind_compatible, hchk]
  refine ⟨{ tracker := ((s.tracker.insert (base + REDZONE_SIZE) new_size AllocKind.Rust).remove
              ptr).1
          , quarantine := (s.quarantine.push ptr (ptr - REDZONE_SIZE) tsize).1
          , mem := poison
              (copyNonoverlapping (fill_canaries s.mem base new_size) ptr
                (base + REDZONE_SIZE) (if old_size < new_size then old_size else new_size))
              ptr tsize
          , freed := s.freed ++
              ((s.quarantine.push ptr (ptr - REDZONE_SIZE) tsize).2).toList }, ?_, ?_, rfl, rfl, rfl⟩
  · have hne : ¬ (base + REDZONE_SIZE = 0) := by omega
    unfold sanitized_realloc
    rw [hr]
    simp only [sanitized_dealloc]
    simp [hne, hdeal]
  · intro j hj
    have hj2 : j < old_size ∧ j < new_size := by omega
    show poison
        (copyNonoverlapping (fill_canaries s.mem base new_size) ptr
          (base + REDZONE_SIZE) (if old_size < new_size then old_size else new_size))
        ptr tsize (base + REDZONE_SIZE + j) = s.mem (ptr + j)
    unfold poison
    rw [writeBytes_out _ _ _ _ _ (by
      have hd := hd1 (REDZONE_SIZE + j) (by rw [htot]; omega)
      omega)]
    unfold copyNonoverlapping
    rw [if_pos ⟨by omega, by omega⟩,
      show base + REDZONE_SIZE + j - (base + REDZONE_SIZE) = j by omega]
    exact hfill_old (ptr + j) (by omega) (by omega)

/-- Witness for C7: grow the live 4-byte block at address 100 to 8 bytes,
the fresh raw block at 1000. -/
theorem sanitized_realloc_spec_witness :
    ((1000 : Nat) ≠ 0 ∧
     REDZONE_SIZE ≤ (100 : Nat) ∧
     ((stateW1.tracker.insert (1000 + REDZONE_SIZE) 8 AllocKind.Rust).remove 100).2
        = some (4, AllocKind.Rust) ∧
     (∀ i, i < total_size 8 →
        1000 + i < 100 - REDZONE_SIZE ∨ 100 + 4 + REDZONE_SIZE ≤ 1000 + i) ∧
     (∀ i, i < total_size 8 → 1000 + i < 100 ∨ 100 + 4 ≤ 1000 + i) ∧
     (∀ i, i < REDZONE_SIZE → stateW1.mem (100 - REDZONE_SIZE + i) = CANARY_BYTE) ∧
     (∀ i, i < REDZONE_SIZE → stateW1.mem (100 + 4 + i) = CANARY_BYTE)) ∧
    (∃ s2, sanitized_realloc stateW1 100 4 8 1000 = Except.ok (1000 + REDZONE_SIZE, s2) ∧
      (∀ j, j < min 4 8 → s2.mem (1000 + REDZONE_SIZE + j) = stateW1.mem (100 + j)) ∧
      s2.tracker
        = ((stateW1.tracker.insert (1000 + REDZONE_SIZE) 8 AllocKind.Rust).remove 100).1 ∧
      s2.quarantine = (stateW1.quarantine.push 100 (100 - REDZONE_SIZE) 4).1 ∧
      s2.freed = stateW1.freed ++
        ((stateW1.quarantine.push 100 (100 - REDZONE_SIZE) 4).2).toList) :=
  ⟨⟨by decide, by decide, by decide, by decide, by decide, by decide, by decide⟩,
    sanitized_realloc_spec stateW1 100 4 8 1000 4 (by decide) (by decide) (by decide)
      (by decide) (by decide) (by decide) (by decide)⟩

end LibCpp
